import Mathlib

/-!
Shallow embedding of the property binding engine in
`sixtyfps_runtime/corelib/abi/properties.rs`.

A `Property<T>` is a reference-counted `RefCell<PropertyImpl>` (binding,
dependencies, dirty) together with a typed value slot.  Here the heap of
property cells is modelled as a list indexed by `PropId`; `Rc`/`Weak`
pointers become indices (all cells in the modelled heap stay live, so
`Weak::upgrade` always succeeds), and the `RefCell` mutable-borrow flag
that is held across a binding evaluation is modelled by a `locked` field.
The thread-local `CURRENT_BINDING` slot and a ghost log of binding
evaluations live in the global state.

Rust binding closures are arbitrary code that reads other properties via
`Property::get`; they are embedded as the expression type `BExpr`, whose
evaluation performs exactly those `get` calls.  Binding evaluation is run
with explicit fuel (structural recursion, so the kernel can evaluate it);
running out of fuel is a separate outcome from the two RefCell panics.
-/

namespace Props

/-- Index identifying a property cell, standing in for `Rc<RefCell<PropertyImpl>>`. -/
abbrev PropId := Nat

/-- The two panics reachable in `properties.rs`:
`borrowError` models `RefCell::borrow` panicking ("already mutably borrowed")
at the dirty check of `Property::update`, and `circularDependency` models the
`expect("Circular dependency in binding evaluation")` on `try_borrow_mut`. -/
inductive PanicKind where
  | borrowError
  | circularDependency
deriving DecidableEq

/-- Embedding of binding closures (`impl Fn(&EvaluationContext) -> T`):
a binding computes pure functions over values obtained by `Property::get`
on other properties. -/
inductive BExpr (T : Type) where
  | const : T → BExpr T
  | get : PropId → BExpr T
  | app : (T → T) → BExpr T → BExpr T
  | app2 : (T → T → T) → BExpr T → BExpr T → BExpr T

/-- `struct PropertyImpl` plus the value slot of `Property<T>` and the
`RefCell` mutable-borrow flag (`locked`, true while this cell's binding is
being evaluated with the `RefMut` held). -/
structure PropertyImpl (T : Type) where
  binding : Option (BExpr T)
  dependencies : List PropId
  dirty : Bool
  locked : Bool
  value : T

/-- `#[derive(Default)]`: no binding, empty dependents, clean, unborrowed,
default value. -/
instance {T : Type} [Inhabited T] : Inhabited (PropertyImpl T) :=
  ⟨⟨none, [], false, false, default⟩⟩

/-- Global state: the heap of property cells, the thread-local
`CURRENT_BINDING` slot, and a ghost trace of which cells had their binding
invoked (used only to state evaluation-count properties). -/
structure PState (T : Type) where
  cells : List (PropertyImpl T)
  currentBinding : Option PropId
  evalLog : List PropId

/-- `EvaluationContext`: the parent-linked chain of component scopes.  The
component reference is opaque to the engine and modelled by a `Nat` id. -/
inductive EvaluationContext where
  | for_root_component : Nat → EvaluationContext
  | child_context : EvaluationContext → Nat → EvaluationContext

/-- Dereference a cell handle (out-of-range ids give the default cell;
all operations in the claims use in-range ids). -/
def getCell {T : Type} [Inhabited T] (s : PState T) (p : PropId) : PropertyImpl T :=
  s.cells.getD p default

/-- Store back through a cell handle. -/
def setCell {T : Type} (s : PState T) (p : PropId) (c : PropertyImpl T) : PState T :=
  { s with cells := s.cells.set p c }

/-- `register_current_binding_as_dependency`: if the thread-local
`CURRENT_BINDING` slot holds a cell, push a weak reference to it onto this
cell's dependents.  (The `borrow_mut` here is transient; at every call site
in the source the cell is unborrowed, because `Property::get` calls it only
after `update` returned.) -/
def registerDep {T : Type} [Inhabited T] (s : PState T) (p : PropId) : PState T :=
  match s.currentBinding with
  | none => s
  | some m =>
      let c := getCell s p
      setCell s p { c with dependencies := c.dependencies ++ [m] }

/-- Number of dependency edges currently stored in the heap; the fuel bound
for the mark-dirty sweep. -/
def totalEdges {T : Type} (s : PState T) : Nat :=
  (s.cells.map (fun c => c.dependencies.length)).sum

/-- `PropertyNotify::mark_dirty`, defunctionalized to a worklist: visiting a
cell sets its dirty flag and swaps its dependents list out for an empty one
(`std::mem::swap`) before recursing into the swapped-out list, exactly as the
source does; the worklist prepend reproduces the source's depth-first order.
The fuel argument counts visits; `totalEdges` bounds it (each cell's edges
are handed out at most once because the list is emptied at the visit). -/
def mark_dirty_go {T : Type} [Inhabited T] :
    Nat → PState T → List PropId → Option (PState T)
  | _, s, [] => some s
  | 0, _, _ :: _ => none
  | fuel+1, s, p :: rest =>
      let c := getCell s p
      let s' := setCell s p { c with dirty := true, dependencies := [] }
      mark_dirty_go fuel s' (c.dependencies ++ rest)

/-- `PropertyNotify::mark_dirty` on one cell.  `totalEdges s + 1` fuel always
suffices (proved below), so the `getD` fallback is never taken. -/
def mark_dirty {T : Type} [Inhabited T] (s : PState T) (p : PropId) : PState T :=
  (mark_dirty_go (totalEdges s + 1) s [p]).getD s

/-- Outcomes of a fuelled evaluation: a RefCell panic, or fuel exhaustion
(an artifact of the fuelled embedding, never reached with enough fuel). -/
inductive EvalErr where
  | panicked : PanicKind → EvalErr
  | outOfFuel : EvalErr
deriving DecidableEq

/-- The three mutually recursive activities of the engine, merged into one
fuelled function: `Property::update`, evaluation of a binding body, and
`Property::get`. -/
inductive Task (T : Type) where
  | update : PropId → Task T
  | evalExpr : BExpr T → Task T
  | getProp : PropId → Task T

/-- First half of the binding-evaluation block of `Property::update`:
acquire the `RefMut` (model: set `locked`) and swap this cell into the
thread-local `CURRENT_BINDING` slot. -/
def updateEnter {T : Type} [Inhabited T] (s : PState T) (p : PropId) : PState T :=
  let c := getCell s p
  setCell { s with currentBinding := some p } p { c with locked := true }

/-- Second half of the binding-evaluation block of `Property::update`: the
binding writes its result through the value pointer, `lock.dirty = false`,
the previous `CURRENT_BINDING` occupant is swapped back, and the `RefMut` is
released.  Also appends to the ghost evaluation log. -/
def updateExit {T : Type} [Inhabited T] (s : PState T) (p : PropId)
    (old : Option PropId) (v : T) : PState T :=
  let c := getCell s p
  { setCell s p { c with value := v, dirty := false, locked := false } with
      currentBinding := old, evalLog := s.evalLog ++ [p] }

/-- Fuelled interpreter for the three engine activities.

`.update p` is `Property::update`: the `borrow()` at the dirty check panics
if the cell is mutably borrowed (re-entrant evaluation); a clean cell
returns immediately; `try_borrow_mut` would fail with the circular-dependency
message (unreachable after the first check succeeds); with a binding
installed, evaluate it between `updateEnter` and `updateExit`; with no
binding, do nothing (the dirty flag stays set).

`.evalExpr e` runs a binding body: property reads go through `.getProp`.

`.getProp p` is `Property::get`: `update`, then
`register_current_binding_as_dependency`, then clone the value out.

`.update` also returns the cell's value so that all tasks share one result
type; `Property::update` itself discards it. -/
def run {T : Type} [Inhabited T] :
    Nat → PState T → EvaluationContext → Task T → Except EvalErr (T × PState T)
  | 0, _, _, _ => .error .outOfFuel
  | fuel+1, s, ctx, .update p =>
      let c := getCell s p
      if c.locked then .error (.panicked .borrowError)
      else if !c.dirty then .ok (c.value, s)
      else if c.locked then .error (.panicked .circularDependency)
      else
        match c.binding with
        | none => .ok (c.value, s)
        | some b =>
            match run fuel (updateEnter s p) ctx (.evalExpr b) with
            | .error e => .error e
            | .ok (v, s2) => .ok (v, updateExit s2 p s.currentBinding v)
  | fuel+1, s, ctx, .evalExpr e =>
      match e with
      | .const v => .ok (v, s)
      | .get q => run fuel s ctx (.getProp q)
      | .app f e1 =>
          match run fuel s ctx (.evalExpr e1) with
          | .error err => .error err
          | .ok (v, s1) => .ok (f v, s1)
      | .app2 f e1 e2 =>
          match run fuel s ctx (.evalExpr e1) with
          | .error err => .error err
          | .ok (v1, s1) =>
              match run fuel s1 ctx (.evalExpr e2) with
              | .error err => .error err
              | .ok (v2, s2) => .ok (f v1 v2, s2)
  | fuel+1, s, ctx, .getProp p =>
      match run fuel s ctx (.update p) with
      | .error e => .error e
      | .ok (_, s1) =>
          let s2 := registerDep s1 p
          .ok ((getCell s2 p).value, s2)

namespace Property

/-- `Property::update` (public wrapper; the returned value of the shared
interpreter is discarded, as in the source where `update` returns `()`). -/
def update {T : Type} [Inhabited T] (fuel : Nat) (s : PState T)
    (ctx : EvaluationContext) (p : PropId) : Except EvalErr (PState T) :=
  (run fuel s ctx (.update p)).map Prod.snd

/-- `Property::get`: update, register the current binding as a dependency,
return a clone of the value. -/
def get {T : Type} [Inhabited T] (fuel : Nat) (s : PState T)
    (ctx : EvaluationContext) (p : PropId) : Except EvalErr (T × PState T) :=
  run fuel s ctx (.getProp p)

/-- `Property::set`: under the borrow, clear the binding, clear dirty, store
the value; then `mark_dirty` (which re-sets this cell's dirty flag and
sweeps the dependents); then clear this cell's dirty flag again. -/
def set {T : Type} [Inhabited T] (s : PState T) (p : PropId) (t : T) : PState T :=
  let c := getCell s p
  let s1 := setCell s p { c with binding := none, dirty := false, value := t }
  let s2 := mark_dirty s1 p
  let c2 := getCell s2 p
  setCell s2 p { c2 with dirty := false }

/-- `Property::set_binding`: install the binding, then `mark_dirty` (leaving
this cell itself dirty, forcing evaluation on the next `get`). -/
def set_binding {T : Type} [Inhabited T] (s : PState T) (p : PropId)
    (f : BExpr T) : PState T :=
  let c := getCell s p
  let s1 := setCell s p { c with binding := some f }
  mark_dirty s1 p

end Property

/-- `sixtyfps_property_init`: a default cell (the value content is
caller-owned at the opaque boundary, so only the handle state matters). -/
def sixtyfps_property_init {T : Type} [Inhabited T] : PropertyImpl T := default

/-- A fresh heap of `n` default-initialized cells. -/
def initState (T : Type) [Inhabited T] (n : Nat) : PState T :=
  ⟨List.replicate n default, none, []⟩

/-- `sixtyfps_property_update`: the opaque-boundary read path.  The value
lives in caller-owned storage (`val`); a clean cell registers the dependency
and returns the storage untouched; a dirty bound cell evaluates the binding
writing through `val`, clears dirty, restores the `CURRENT_BINDING` slot,
and registers the dependency after dropping the lock. -/
def sixtyfps_property_update {T : Type} [Inhabited T] (fuel : Nat) (s : PState T)
    (ctx : EvaluationContext) (p : PropId) (val : T) : Except EvalErr (T × PState T) :=
  let c := getCell s p
  if c.locked then .error (.panicked .borrowError)
  else if !c.dirty then .ok (val, registerDep s p)
  else if c.locked then .error (.panicked .circularDependency)
  else
    match c.binding with
    | none => .ok (val, registerDep s p)
    | some b =>
        match run fuel (updateEnter s p) ctx (.evalExpr b) with
        | .error e => .error e
        | .ok (v, s2) =>
            let s3 := updateExit s2 p s.currentBinding v
            .ok (v, registerDep s3 p)

/-- `sixtyfps_property_set_changed`: `mark_dirty`, then clear this cell's
dirty flag, then clear its binding. -/
def sixtyfps_property_set_changed {T : Type} [Inhabited T] (s : PState T)
    (p : PropId) : PState T :=
  let s1 := mark_dirty s p
  let c1 := getCell s1 p
  let s2 := setCell s1 p { c1 with dirty := false }
  let c2 := getCell s2 p
  setCell s2 p { c2 with binding := none }

/-- `sixtyfps_property_set_binding`: install the C-function binding, then
`mark_dirty` — structurally identical to `Property::set_binding` once the
closure is embedded as a `BExpr`. -/
def sixtyfps_property_set_binding {T : Type} [Inhabited T] (s : PState T)
    (p : PropId) (b : BExpr T) : PState T :=
  let s1 := setCell s p { getCell s p with binding := some b }
  mark_dirty s1 p

/-- Top-level operations a client can perform on the engine, used to state
trace properties ("… until the next write/bind"). -/
inductive Op (T : Type) where
  | set : PropId → T → Op T
  | set_binding : PropId → BExpr T → Op T
  | get : PropId → Op T

/-- Whether an operation is a write or rebind of the given property. -/
def Op.touches {T : Type} : Op T → PropId → Bool
  | .set q _, p => q == p
  | .set_binding q _, p => q == p
  | .get _, _ => false

/-- Run one top-level operation (a panic aborts the program, hence the run). -/
def runOp {T : Type} [Inhabited T] (fuel : Nat) (ctx : EvaluationContext)
    (s : PState T) : Op T → Except EvalErr (PState T)
  | .set p v => .ok (Property.set s p v)
  | .set_binding p b => .ok (Property.set_binding s p b)
  | .get p => (Property.get fuel s ctx p).map Prod.snd

/-- Run a sequence of top-level operations. -/
def runOps {T : Type} [Inhabited T] (fuel : Nat) (ctx : EvaluationContext) :
    List (Op T) → PState T → Except EvalErr (PState T)
  | [], s => .ok s
  | op :: ops, s =>
      match runOp fuel ctx s op with
      | .error e => .error e
      | .ok s' => runOps fuel ctx ops s'

/-- Value component of a `get` outcome. -/
def getValue {T : Type} (r : Except EvalErr (T × PState T)) : Option T :=
  match r with
  | .ok (v, _) => some v
  | .error _ => none

/-- State component of a `get` outcome. -/
def getState {T : Type} (r : Except EvalErr (T × PState T)) : Option (PState T) :=
  match r with
  | .ok (_, s) => some s
  | .error _ => none

/-- Explicit dependency paths: `pathTo s r l q` holds when `l` lists the
successive dependents leading from `r` to `q` through the current
`dependencies` edges. -/
def pathTo {T : Type} [Inhabited T] (s : PState T) : PropId → List PropId → PropId → Bool
  | r, [], q => r == q
  | r, d :: ds, q => (getCell s r).dependencies.contains d && pathTo s d ds q

/-- `q` is transitively registered as a dependent of `r` (reflexive closure
of the dependents edges). -/
def Reaches {T : Type} [Inhabited T] (s : PState T) (r q : PropId) : Prop :=
  ∃ l, pathTo s r l q = true

/-- Every dependency edge points at a live in-range cell. -/
def DepsInRange {T : Type} [Inhabited T] (s : PState T) : Prop :=
  ∀ q d, d ∈ (getCell s q).dependencies → d < s.cells.length

/-- No cell is currently being evaluated (all `RefCell`s unborrowed), as at
every top-level call into the engine. -/
def AllUnlocked {T : Type} [Inhabited T] (s : PState T) : Prop :=
  ∀ q, (getCell s q).locked = false

end Props

namespace Props

/-! ### List helper lemmas -/

theorem list_set_oob {α : Type _} :
    ∀ (l : List α) (n : Nat) (a : α), l.length ≤ n → l.set n a = l := by
  intro l
  induction l with
  | nil => intro n a _; rfl
  | cons x xs ih =>
      intro n a h
      cases n with
      | zero => simp at h
      | succ m =>
          simp only [List.set]
          rw [ih m a (by simpa using h)]

theorem list_getD_set_self {α : Type _} :
    ∀ (l : List α) (n : Nat) (a d : α), n < l.length → (l.set n a).getD n d = a := by
  intro l
  induction l with
  | nil => intro n a d h; simp at h
  | cons x xs ih =>
      intro n a d h
      cases n with
      | zero => rfl
      | succ m => exact ih m a d (by simpa using h)

theorem list_getD_set_ne {α : Type _} :
    ∀ (l : List α) (m n : Nat) (a d : α), m ≠ n → (l.set m a).getD n d = l.getD n d := by
  intro l
  induction l with
  | nil => intro m n a d _; rfl
  | cons x xs ih =>
      intro m n a d h
      cases m with
      | zero =>
          cases n with
          | zero => exact absurd rfl h
          | succ k => rfl
      | succ j =>
          cases n with
          | zero => rfl
          | succ k => exact ih j k a d (fun e => h (by rw [e]))

theorem list_sum_map_set {α : Type _} (f : α → Nat) :
    ∀ (l : List α) (n : Nat) (a d : α), n < l.length →
      ((l.set n a).map f).sum + f (l.getD n d) = (l.map f).sum + f a := by
  intro l
  induction l with
  | nil => intro n a d h; simp at h
  | cons x xs ih =>
      intro n a d h
      cases n with
      | zero => simp [List.set]; omega
      | succ m =>
          have := ih m a d (by simpa using h)
          simp only [List.set, List.map, List.sum_cons, List.getD_cons_succ]
          omega

theorem list_getD_oob {α : Type _} [Inhabited α] :
    ∀ (l : List α) (n : Nat), l.length ≤ n → l.getD n default = default := by
  intro l
  induction l with
  | nil => intro n _; cases n <;> rfl
  | cons x xs ih =>
      intro n h
      cases n with
      | zero => simp at h
      | succ m => exact ih m (by simpa using h)

/-! ### Cell store lemmas -/

set_option linter.unusedSectionVars false

section StoreLemmas

variable {T : Type} [Inhabited T]

theorem length_setCell (s : PState T) (p : PropId) (c : PropertyImpl T) :
    (setCell s p c).cells.length = s.cells.length := by
  simp [setCell]

theorem setCell_oob (s : PState T) (p : PropId) (c : PropertyImpl T)
    (h : s.cells.length ≤ p) : setCell s p c = s := by
  cases s with
  | mk cells cb log =>
      simp only [setCell]
      rw [list_set_oob _ _ _ h]

theorem getCell_setCell_self (s : PState T) (p : PropId) (c : PropertyImpl T)
    (h : p < s.cells.length) : getCell (setCell s p c) p = c :=
  list_getD_set_self s.cells p c default h

theorem getCell_setCell_ne (s : PState T) (p q : PropId) (c : PropertyImpl T)
    (h : q ≠ p) : getCell (setCell s p c) q = getCell s q :=
  list_getD_set_ne s.cells p q c default (Ne.symm h)

theorem getCell_oob (s : PState T) (p : PropId) (h : s.cells.length ≤ p) :
    getCell s p = default :=
  list_getD_oob s.cells p h

theorem getCell_setCell_cases (s : PState T) (p q : PropId) (c : PropertyImpl T) :
    getCell (setCell s p c) q =
      if q = p ∧ p < s.cells.length then c else getCell s q := by
  by_cases hq : q = p
  · subst hq
    by_cases hr : q < s.cells.length
    · simp only [hr, and_true, if_pos rfl, true_and, if_true]
      exact getCell_setCell_self _ _ _ hr
    · simp only [hr, and_false, if_false]
      rw [setCell_oob _ _ _ (Nat.le_of_not_lt hr)]
  · simp only [hq, false_and, if_false]
    exact getCell_setCell_ne _ _ _ _ hq

theorem currentBinding_setCell (s : PState T) (p : PropId) (c : PropertyImpl T) :
    (setCell s p c).currentBinding = s.currentBinding := rfl

theorem evalLog_setCell (s : PState T) (p : PropId) (c : PropertyImpl T) :
    (setCell s p c).evalLog = s.evalLog := rfl

/-- Bundled field preservation for `registerDep`: it only ever appends to a
dependents list. -/
theorem registerDep_fields (s : PState T) (p q : PropId) :
    (getCell (registerDep s p) q).binding = (getCell s q).binding ∧
    (getCell (registerDep s p) q).locked = (getCell s q).locked ∧
    (getCell (registerDep s p) q).value = (getCell s q).value ∧
    (getCell (registerDep s p) q).dirty = (getCell s q).dirty := by
  cases hcb : s.currentBinding with
  | none => simp [registerDep, hcb]
  | some m =>
      simp only [registerDep, hcb]
      rw [getCell_setCell_cases]
      by_cases h : q = p ∧ p < s.cells.length
      · rcases h with ⟨hq, hr⟩
        subst hq
        simp [hr]
      · simp [h]

theorem registerDep_state (s : PState T) (p : PropId) :
    (registerDep s p).currentBinding = s.currentBinding ∧
    (registerDep s p).evalLog = s.evalLog ∧
    (registerDep s p).cells.length = s.cells.length := by
  cases hcb : s.currentBinding with
  | none => simp [registerDep, hcb]
  | some m => simp [registerDep, hcb, setCell]

end StoreLemmas

/-! ### Mark-dirty sweep lemmas -/

section MarkDirtyLemmas

variable {T : Type} [Inhabited T]

theorem totalEdges_setCell_nil (s : PState T) (p : PropId) (c : PropertyImpl T)
    (hc : c.dependencies = []) :
    totalEdges (setCell s p c) + (getCell s p).dependencies.length = totalEdges s := by
  by_cases hr : p < s.cells.length
  · have hset : ((s.cells.set p c).map (fun c => c.dependencies.length)).sum
        + (s.cells.getD p default).dependencies.length
        = (s.cells.map (fun c => c.dependencies.length)).sum + c.dependencies.length :=
      list_sum_map_set (fun c => c.dependencies.length) s.cells p c default hr
    have hc0 : c.dependencies.length = 0 := by rw [hc]; rfl
    show ((s.cells.set p c).map (fun c => c.dependencies.length)).sum
        + (s.cells.getD p default).dependencies.length
        = (s.cells.map (fun c => c.dependencies.length)).sum
    omega
  · rw [setCell_oob _ _ _ (Nat.le_of_not_lt hr), getCell_oob _ _ (Nat.le_of_not_lt hr)]
    exact Nat.add_zero _

/-- Fuel sufficiency for the invalidation sweep: `totalEdges + |work|` visits
always complete, because each visited cell's edge list is emptied before its
edges join the worklist. -/
theorem mark_dirty_go_isSome :
    ∀ (fuel : Nat) (s : PState T) (work : List PropId),
      totalEdges s + work.length ≤ fuel →
      (mark_dirty_go fuel s work).isSome = true := by
  intro fuel
  induction fuel with
  | zero =>
      intro s work h
      cases work with
      | nil => rfl
      | cons p rest => simp at h
  | succ fuel ih =>
      intro s work h
      cases work with
      | nil => rfl
      | cons p rest =>
          show (mark_dirty_go fuel
            (setCell s p { getCell s p with dirty := true, dependencies := [] })
            ((getCell s p).dependencies ++ rest)).isSome = true
          apply ih
          have hedge := totalEdges_setCell_nil s p
            { getCell s p with dirty := true, dependencies := ([] : List PropId) } rfl
          have h1 : ((getCell s p).dependencies ++ rest).length
              = (getCell s p).dependencies.length + rest.length := List.length_append _ _
          have h2 : (p :: rest).length = rest.length + 1 := List.length_cons _ _
          rw [h1]
          rw [h2] at h
          omega

/-- One sweep step only touches the visited cell's dirty flag and edge list. -/
theorem sweep_step_fields (s : PState T) (p q : PropId) :
    (getCell (setCell s p { getCell s p with dirty := true, dependencies := [] }) q).value
      = (getCell s q).value ∧
    (getCell (setCell s p { getCell s p with dirty := true, dependencies := [] }) q).binding
      = (getCell s q).binding ∧
    (getCell (setCell s p { getCell s p with dirty := true, dependencies := [] }) q).locked
      = (getCell s q).locked := by
  rw [getCell_setCell_cases]
  by_cases h : q = p ∧ p < s.cells.length
  · rcases h with ⟨hq, hr⟩
    subst hq
    simp [hr]
  · simp [h]

/-- One sweep step never clears a dirty flag. -/
theorem sweep_step_dirty (s : PState T) (p q : PropId)
    (h : (getCell s q).dirty = true) :
    (getCell (setCell s p { getCell s p with dirty := true, dependencies := [] }) q).dirty
      = true := by
  rw [getCell_setCell_cases]
  by_cases hc : q = p ∧ p < s.cells.length
  · rcases hc with ⟨hq, hr⟩
    subst hq
    simp [hr]
  · simp [hc, h]

/-- The sweep changes only dirty flags and dependents lists: values, bindings,
borrow flags, the heap size, the evaluation slot and the log are preserved. -/
theorem mark_dirty_go_preserves :
    ∀ (fuel : Nat) (s : PState T) (work : List PropId) (s' : PState T),
      mark_dirty_go fuel s work = some s' →
      (∀ q, (getCell s' q).value = (getCell s q).value ∧
            (getCell s' q).binding = (getCell s q).binding ∧
            (getCell s' q).locked = (getCell s q).locked) ∧
      s'.cells.length = s.cells.length ∧
      s'.currentBinding = s.currentBinding ∧
      s'.evalLog = s.evalLog := by
  intro fuel
  induction fuel with
  | zero =>
      intro s work s' h
      cases work with
      | nil =>
          injection h with h
          subst h
          exact ⟨fun q => ⟨rfl, rfl, rfl⟩, rfl, rfl, rfl⟩
      | cons p rest => exact absurd h (by simp [mark_dirty_go])
  | succ fuel ih =>
      intro s work s' h
      cases work with
      | nil =>
          injection h with h
          subst h
          exact ⟨fun q => ⟨rfl, rfl, rfl⟩, rfl, rfl, rfl⟩
      | cons p rest =>
          replace h : mark_dirty_go fuel
              (setCell s p { getCell s p with dirty := true, dependencies := [] })
              ((getCell s p).dependencies ++ rest) = some s' := h
          obtain ⟨hq, hlen, hcb, hlog⟩ := ih _ _ _ h
          refine ⟨fun q => ?_, ?_, ?_, ?_⟩
          · obtain ⟨hv, hb, hl⟩ := hq q
            obtain ⟨hv2, hb2, hl2⟩ := sweep_step_fields s p q
            exact ⟨hv.trans hv2, hb.trans hb2, hl.trans hl2⟩
          · exact hlen.trans (length_setCell _ _ _)
          · exact hcb
          · exact hlog

/-- The sweep only ever sets dirty flags. -/
theorem mark_dirty_go_dirty_mono :
    ∀ (fuel : Nat) (s : PState T) (work : List PropId) (s' : PState T),
      mark_dirty_go fuel s work = some s' →
      ∀ q, (getCell s q).dirty = true → (getCell s' q).dirty = true := by
  intro fuel
  induction fuel with
  | zero =>
      intro s work s' h q hd
      cases work with
      | nil => injection h with h; subst h; exact hd
      | cons p rest => exact absurd h (by simp [mark_dirty_go])
  | succ fuel ih =>
      intro s work s' h q hd
      cases work with
      | nil => injection h with h; subst h; exact hd
      | cons p rest =>
          replace h : mark_dirty_go fuel
              (setCell s p { getCell s p with dirty := true, dependencies := [] })
              ((getCell s p).dependencies ++ rest) = some s' := h
          exact ih _ _ _ h q (sweep_step_dirty s p q hd)

/-- The wrapper's fuel bound always suffices. -/
theorem mark_dirty_spec (s : PState T) (p : PropId) :
    mark_dirty_go (totalEdges s + 1) s [p] = some (mark_dirty s p) := by
  have h := mark_dirty_go_isSome (totalEdges s + 1) s [p] (by simp)
  cases hx : mark_dirty_go (totalEdges s + 1) s [p] with
  | none => rw [hx] at h; simp at h
  | some s' => simp [mark_dirty, hx]

theorem mark_dirty_preserves (s : PState T) (p : PropId) :
    (∀ q, (getCell (mark_dirty s p) q).value = (getCell s q).value ∧
          (getCell (mark_dirty s p) q).binding = (getCell s q).binding ∧
          (getCell (mark_dirty s p) q).locked = (getCell s q).locked) ∧
    (mark_dirty s p).cells.length = s.cells.length ∧
    (mark_dirty s p).currentBinding = s.currentBinding ∧
    (mark_dirty s p).evalLog = s.evalLog :=
  mark_dirty_go_preserves _ _ _ _ (mark_dirty_spec s p)

end MarkDirtyLemmas


/-! ### Reachability and the completeness of the invalidation sweep -/

section ReachLemmas

variable {T : Type} [Inhabited T]

theorem pathTo_congr (s s' : PState T)
    (h : ∀ r, (getCell s' r).dependencies = (getCell s r).dependencies) :
    ∀ (l : List PropId) (r q : PropId), pathTo s' r l q = pathTo s r l q := by
  intro l
  induction l with
  | nil => intro r q; rfl
  | cons d ds ih =>
      intro r q
      simp only [pathTo, h, ih]

theorem Reaches_congr (s s' : PState T)
    (h : ∀ r, (getCell s' r).dependencies = (getCell s r).dependencies)
    (r q : PropId) : Reaches s' r q ↔ Reaches s r q := by
  constructor
  · rintro ⟨l, hl⟩; exact ⟨l, by rw [← pathTo_congr s s' h]; exact hl⟩
  · rintro ⟨l, hl⟩; exact ⟨l, by rw [pathTo_congr s s' h]; exact hl⟩

/-- Path decomposition across one sweep step: a path in `s` either ends at the
visited cell `p`, or avoids `p`'s (now emptied) edges and survives into `s₁`,
or passes through one of `p`'s handed-out edges. -/
theorem path_shift (s s₁ : PState T) (p : PropId)
    (hne : ∀ r, r ≠ p → (getCell s₁ r).dependencies = (getCell s r).dependencies) :
    ∀ (l : List PropId) (r q : PropId), pathTo s r l q = true →
      q = p ∨ (∃ l', pathTo s₁ r l' q = true) ∨
      (∃ d, d ∈ (getCell s p).dependencies ∧ ∃ l', pathTo s₁ d l' q = true) := by
  intro l
  induction l with
  | nil =>
      intro r q h
      exact Or.inr (Or.inl ⟨[], h⟩)
  | cons d ds ih =>
      intro r q h
      simp only [pathTo, Bool.and_eq_true] at h
      obtain ⟨hd, hrest⟩ := h
      rcases ih d q hrest with hq | ⟨l', hl'⟩ | hthird
      · exact Or.inl hq
      · by_cases hr : r = p
        · subst hr
          exact Or.inr (Or.inr ⟨d, List.elem_iff.mp hd, l', hl'⟩)
        · refine Or.inr (Or.inl ⟨d :: l', ?_⟩)
          simp only [pathTo, hne r hr, Bool.and_eq_true]
          exact ⟨hd, hl'⟩
      · exact Or.inr (Or.inr hthird)

/-- Completeness of the sweep: every cell reachable (through the dependents
edges as they stood when the sweep started) from a worklist entry ends up
dirty, cycles included. -/
theorem mark_dirty_go_marks :
    ∀ (fuel : Nat) (s : PState T) (work : List PropId) (s' : PState T),
      DepsInRange s → (∀ r ∈ work, r < s.cells.length) →
      mark_dirty_go fuel s work = some s' →
      ∀ r q l, r ∈ work → pathTo s r l q = true → (getCell s' q).dirty = true := by
  intro fuel
  induction fuel with
  | zero =>
      intro s work s' _ _ h r q l hr _
      cases work with
      | nil => simp at hr
      | cons p rest => exact absurd h (by simp [mark_dirty_go])
  | succ fuel ih =>
      intro s work s' hWF hw h r q l hr hpath
      cases work with
      | nil => simp at hr
      | cons p rest =>
          replace h : mark_dirty_go fuel
              (setCell s p { getCell s p with dirty := true, dependencies := [] })
              ((getCell s p).dependencies ++ rest) = some s' := h
          have hplen : p < s.cells.length := hw p (by simp)
          have hstep := getCell_setCell_self s p
            { getCell s p with dirty := true, dependencies := [] } hplen
          have hS1p_dirty :
              (getCell (setCell s p { getCell s p with dirty := true, dependencies := [] }) p).dirty
                = true := by rw [hstep]
          have hpdeps :
              (getCell (setCell s p { getCell s p with dirty := true, dependencies := [] }) p).dependencies
                = [] := by rw [hstep]
          have hne : ∀ r, r ≠ p →
              (getCell (setCell s p { getCell s p with dirty := true, dependencies := [] }) r).dependencies
                = (getCell s r).dependencies := by
            intro r hrp
            rw [getCell_setCell_ne _ _ _ _ hrp]
          have hlen : (setCell s p { getCell s p with dirty := true, dependencies := [] }).cells.length
              = s.cells.length := length_setCell _ _ _
          have hWF1 : DepsInRange
              (setCell s p { getCell s p with dirty := true, dependencies := [] }) := by
            intro a d hd
            rw [hlen]
            by_cases ha : a = p
            · subst ha; rw [hpdeps] at hd; simp at hd
            · rw [hne a ha] at hd; exact hWF a d hd
          have hw1 : ∀ r ∈ (getCell s p).dependencies ++ rest,
              r < (setCell s p { getCell s p with dirty := true, dependencies := [] }).cells.length := by
            intro r hmem
            rw [hlen]
            rcases List.mem_append.1 hmem with h1 | h2
            · exact hWF p r h1
            · exact hw r (List.mem_cons_of_mem _ h2)
          have hmarkp : (getCell s' p).dirty = true :=
            mark_dirty_go_dirty_mono _ _ _ _ h p hS1p_dirty
          rcases path_shift s _ p hne l r q hpath with hq | ⟨l', hl'⟩ | ⟨d, hdmem, l', hl'⟩
          · subst hq; exact hmarkp
          · by_cases hrp : r = p
            · subst hrp
              cases l' with
              | nil =>
                  have : r = q := by simpa [pathTo] using hl'
                  subst this
                  exact hmarkp
              | cons d ds =>
                  rw [pathTo, hpdeps] at hl'
                  simp at hl'
            · have hrrest : r ∈ rest := by
                rcases List.mem_cons.1 hr with h1 | h2
                · exact absurd h1 hrp
                · exact h2
              exact ih _ _ _ hWF1 hw1 h r q l' (List.mem_append_right _ hrrest) hl'
          · exact ih _ _ _ hWF1 hw1 h d q l' (List.mem_append_left _ hdmem) hl'

/-- Completeness of one `mark_dirty` call. -/
theorem mark_dirty_marks (s : PState T) (p : PropId)
    (hWF : DepsInRange s) (hp : p < s.cells.length) :
    ∀ q, Reaches s p q → (getCell (mark_dirty s p) q).dirty = true := by
  rintro q ⟨l, hl⟩
  refine mark_dirty_go_marks _ s [p] _ hWF ?_ (mark_dirty_spec s p) p q l (by simp) hl
  intro r hr
  simp only [List.mem_singleton] at hr
  subst hr
  exact hp

end ReachLemmas


/-! ### Interpreter lemmas -/

section RunLemmas

variable {T : Type} [Inhabited T]

theorem updateEnter_getCell (s : PState T) (p q : PropId) :
    getCell (updateEnter s p) q =
      if q = p ∧ p < s.cells.length then { getCell s p with locked := true }
      else getCell s q :=
  getCell_setCell_cases _ _ _ _

theorem updateExit_getCell (s : PState T) (p q : PropId) (old : Option PropId) (v : T) :
    getCell (updateExit s p old v) q =
      if q = p ∧ p < s.cells.length then
        { getCell s p with value := v, dirty := false, locked := false }
      else getCell s q :=
  getCell_setCell_cases _ _ _ _

theorem updateEnter_state (s : PState T) (p : PropId) :
    (updateEnter s p).currentBinding = some p ∧
    (updateEnter s p).evalLog = s.evalLog ∧
    (updateEnter s p).cells.length = s.cells.length := by
  refine ⟨rfl, rfl, ?_⟩
  exact length_setCell _ _ _

theorem updateExit_state (s : PState T) (p : PropId) (old : Option PropId) (v : T) :
    (updateExit s p old v).currentBinding = old ∧
    (updateExit s p old v).evalLog = s.evalLog ++ [p] ∧
    (updateExit s p old v).cells.length = s.cells.length := by
  refine ⟨rfl, rfl, ?_⟩
  exact length_setCell _ _ _

theorem updateEnter_proj (s : PState T) (p q : PropId) :
    (getCell (updateEnter s p) q).binding = (getCell s q).binding ∧
    (getCell (updateEnter s p) q).value = (getCell s q).value ∧
    (getCell (updateEnter s p) q).dirty = (getCell s q).dirty ∧
    (getCell (updateEnter s p) q).locked =
      (if q = p ∧ p < s.cells.length then true else (getCell s q).locked) := by
  rw [updateEnter_getCell]
  by_cases h : q = p ∧ p < s.cells.length
  · obtain ⟨h1, h2⟩ := h
    subst h1
    simp [h2]
  · simp [h]

theorem updateExit_proj (s : PState T) (p q : PropId) (old : Option PropId) (v : T) :
    (getCell (updateExit s p old v) q).binding = (getCell s q).binding ∧
    (getCell (updateExit s p old v) q).value =
      (if q = p ∧ p < s.cells.length then v else (getCell s q).value) ∧
    (getCell (updateExit s p old v) q).dirty =
      (if q = p ∧ p < s.cells.length then false else (getCell s q).dirty) ∧
    (getCell (updateExit s p old v) q).locked =
      (if q = p ∧ p < s.cells.length then false else (getCell s q).locked) := by
  rw [updateExit_getCell]
  by_cases h : q = p ∧ p < s.cells.length
  · obtain ⟨h1, h2⟩ := h
    subst h1
    simp [h2]
  · simp [h]

theorem run_zero (s : PState T) (ctx : EvaluationContext) (t : Task T) :
    run 0 s ctx t = .error .outOfFuel := rfl

theorem run_update_succ (fuel : Nat) (s : PState T) (ctx : EvaluationContext) (p : PropId) :
    run (fuel+1) s ctx (.update p) =
      (if (getCell s p).locked then .error (.panicked .borrowError)
       else if !(getCell s p).dirty then .ok ((getCell s p).value, s)
       else if (getCell s p).locked then .error (.panicked .circularDependency)
       else
         match (getCell s p).binding with
         | none => .ok ((getCell s p).value, s)
         | some b =>
             match run fuel (updateEnter s p) ctx (.evalExpr b) with
             | .error e => .error e
             | .ok (v, s2) => .ok (v, updateExit s2 p s.currentBinding v)) := rfl

theorem run_getProp_succ (fuel : Nat) (s : PState T) (ctx : EvaluationContext) (p : PropId) :
    run (fuel+1) s ctx (.getProp p) =
      (match run fuel s ctx (.update p) with
       | .error e => .error e
       | .ok (_, s1) => .ok ((getCell (registerDep s1 p) p).value, registerDep s1 p)) := rfl

theorem run_evalExpr_succ (fuel : Nat) (s : PState T) (ctx : EvaluationContext) (e : BExpr T) :
    run (fuel+1) s ctx (.evalExpr e) =
      (match e with
       | .const v => .ok (v, s)
       | .get q => run fuel s ctx (.getProp q)
       | .app f e1 =>
           match run fuel s ctx (.evalExpr e1) with
           | .error err => .error err
           | .ok (v, s1) => .ok (f v, s1)
       | .app2 f e1 e2 =>
           match run fuel s ctx (.evalExpr e1) with
           | .error err => .error err
           | .ok (v1, s1) =>
               match run fuel s1 ctx (.evalExpr e2) with
               | .error err => .error err
               | .ok (v2, s2) => .ok (f v1 v2, s2)) := rfl

theorem run_evalExpr_const (fuel : Nat) (s : PState T) (ctx : EvaluationContext) (v0 : T) :
    run (fuel+1) s ctx (.evalExpr (.const v0)) = .ok (v0, s) := rfl

theorem run_evalExpr_get (fuel : Nat) (s : PState T) (ctx : EvaluationContext) (q : PropId) :
    run (fuel+1) s ctx (.evalExpr (.get q)) = run fuel s ctx (.getProp q) := rfl

theorem run_evalExpr_app (fuel : Nat) (s : PState T) (ctx : EvaluationContext)
    (f : T → T) (e1 : BExpr T) :
    run (fuel+1) s ctx (.evalExpr (.app f e1)) =
      (match run fuel s ctx (.evalExpr e1) with
       | .error err => .error err
       | .ok (v, s1) => .ok (f v, s1)) := rfl

theorem run_evalExpr_app2 (fuel : Nat) (s : PState T) (ctx : EvaluationContext)
    (f : T → T → T) (e1 e2 : BExpr T) :
    run (fuel+1) s ctx (.evalExpr (.app2 f e1 e2)) =
      (match run fuel s ctx (.evalExpr e1) with
       | .error err => .error err
       | .ok (v1, s1) =>
           match run fuel s1 ctx (.evalExpr e2) with
           | .error err => .error err
           | .ok (v2, s2) => .ok (f v1 v2, s2)) := rfl

/-- Facts preserved by every successful interpreter step: bindings of all
cells, borrow flags of all cells, values of binding-free cells, the
`CURRENT_BINDING` slot (always restored), and the heap size. -/
def Pres (s s' : PState T) : Prop :=
  (∀ q, (getCell s' q).binding = (getCell s q).binding) ∧
  (∀ q, (getCell s' q).locked = (getCell s q).locked) ∧
  (∀ q, (getCell s q).binding = none → (getCell s' q).value = (getCell s q).value) ∧
  s'.currentBinding = s.currentBinding ∧
  s'.cells.length = s.cells.length

theorem Pres_id (s : PState T) : Pres s s :=
  ⟨fun _ => rfl, fun _ => rfl, fun _ _ => rfl, rfl, rfl⟩

theorem Pres_comp {s s1 s2 : PState T} (h1 : Pres s s1) (h2 : Pres s1 s2) : Pres s s2 := by
  obtain ⟨b1, l1, v1, c1, n1⟩ := h1
  obtain ⟨b2, l2, v2, c2, n2⟩ := h2
  refine ⟨fun q => (b2 q).trans (b1 q), fun q => (l2 q).trans (l1 q),
    fun q hq => ?_, c2.trans c1, n2.trans n1⟩
  have hq1 : (getCell s1 q).binding = none := (b1 q).trans hq
  exact (v2 q hq1).trans (v1 q hq)

theorem registerDep_Pres (s : PState T) (p : PropId) : Pres s (registerDep s p) := by
  obtain ⟨hb, hl, hv, _⟩ := registerDep_fields s p p
  refine ⟨fun q => (registerDep_fields s p q).1, fun q => (registerDep_fields s p q).2.1,
    fun q _ => (registerDep_fields s p q).2.2.1, (registerDep_state s p).1,
    (registerDep_state s p).2.2⟩

theorem run_preserves :
    ∀ (fuel : Nat) (s : PState T) (ctx : EvaluationContext) (t : Task T) (v : T) (s' : PState T),
      run fuel s ctx t = .ok (v, s') → Pres s s' := by
  intro fuel
  induction fuel with
  | zero => intro s ctx t v s' h; exact absurd h (by simp [run_zero])
  | succ fuel ih =>
      intro s ctx t v s' h
      cases t with
      | update p =>
          rw [run_update_succ] at h
          cases hlock : (getCell s p).locked with
          | true => rw [hlock] at h; simp at h
          | false =>
              rw [hlock] at h
              simp only [Bool.false_eq_true, if_false] at h
              cases hdirty : (getCell s p).dirty with
              | false =>
                  rw [hdirty] at h
                  simp only [Bool.not_false, if_true] at h
                  obtain ⟨hv, hs⟩ : (getCell s p).value = v ∧ s = s' := by
                    simpa using h
                  subst hs
                  exact Pres_id s
              | true =>
                  rw [hdirty] at h
                  simp only [Bool.not_true, Bool.false_eq_true, if_false] at h
                  cases hb : (getCell s p).binding with
                  | none =>
                      rw [hb] at h
                      obtain ⟨hv, hs⟩ : (getCell s p).value = v ∧ s = s' := by
                        simpa using h
                      subst hs
                      exact Pres_id s
                  | some b =>
                      simp only [hb] at h
                      cases hrun : run fuel (updateEnter s p) ctx (.evalExpr b) with
                      | error e => rw [hrun] at h; simp at h
                      | ok pr =>
                          obtain ⟨v0, s2⟩ := pr
                          rw [hrun] at h
                          obtain ⟨hv, hs⟩ :
                              v0 = v ∧ updateExit s2 p s.currentBinding v0 = s' := by
                            simpa using h
                          subst hv
                          subst hs
                          obtain ⟨ihb, ihl, ihv, ihcb, ihlen⟩ := ih _ _ _ _ _ hrun
                          have hs2len : s2.cells.length = s.cells.length :=
                            ihlen.trans (updateEnter_state s p).2.2
                          refine ⟨fun q => ?_, fun q => ?_, fun q hq => ?_, ?_, ?_⟩
                          · rw [(updateExit_proj s2 p q _ _).1, ihb q,
                              (updateEnter_proj s p q).1]
                          · rw [(updateExit_proj s2 p q _ _).2.2.2]
                            by_cases hqr : q = p ∧ p < s2.cells.length
                            · have hq1 : q = p := hqr.1
                              subst hq1
                              rw [if_pos hqr, hlock]
                            · rw [if_neg hqr, ihl q, (updateEnter_proj s p q).2.2.2,
                                if_neg (by rw [← hs2len]; exact hqr)]
                          · have hqp : q ≠ p := fun hc => by
                              rw [hc, hb] at hq; exact Option.noConfusion hq
                            rw [(updateExit_proj s2 p q _ _).2.1,
                              if_neg (fun hc => hqp hc.1), ihv q ?_,
                              (updateEnter_proj s p q).2.1]
                            rw [(updateEnter_proj s p q).1]
                            exact hq
                          · exact (updateExit_state s2 p _ _).1
                          · exact (updateExit_state s2 p _ _).2.2.trans hs2len
      | evalExpr e =>
          cases e with
          | const v0 =>
              rw [run_evalExpr_const] at h
              obtain ⟨hv, hs⟩ : v0 = v ∧ s = s' := by simpa using h
              subst hs
              exact Pres_id s
          | get q =>
              rw [run_evalExpr_get] at h
              exact ih _ _ _ _ _ h
          | app f e1 =>
              rw [run_evalExpr_app] at h
              cases hrun : run fuel s ctx (.evalExpr e1) with
              | error e => rw [hrun] at h; simp at h
              | ok pr =>
                  obtain ⟨v1, s1⟩ := pr
                  rw [hrun] at h
                  obtain ⟨hv, hs⟩ : f v1 = v ∧ s1 = s' := by simpa using h
                  subst hs
                  exact ih _ _ _ _ _ hrun
          | app2 f e1 e2 =>
              rw [run_evalExpr_app2] at h
              cases hrun1 : run fuel s ctx (.evalExpr e1) with
              | error e => rw [hrun1] at h; simp at h
              | ok pr1 =>
                  obtain ⟨v1, s1⟩ := pr1
                  simp only [hrun1] at h
                  cases hrun2 : run fuel s1 ctx (.evalExpr e2) with
                  | error e => rw [hrun2] at h; simp at h
                  | ok pr2 =>
                      obtain ⟨v2, s2⟩ := pr2
                      rw [hrun2] at h
                      obtain ⟨hv, hs⟩ : f v1 v2 = v ∧ s2 = s' := by simpa using h
                      subst hs
                      exact Pres_comp (ih _ _ _ _ _ hrun1) (ih _ _ _ _ _ hrun2)
      | getProp p =>
          rw [run_getProp_succ] at h
          cases hrun : run fuel s ctx (.update p) with
          | error e => rw [hrun] at h; simp at h
          | ok pr =>
              obtain ⟨v0, s1⟩ := pr
              rw [hrun] at h
              obtain ⟨hv, hs⟩ :
                  (getCell (registerDep s1 p) p).value = v ∧ registerDep s1 p = s' := by
                simpa using h
              subst hs
              exact Pres_comp (ih _ _ _ _ _ hrun) (registerDep_Pres s1 p)

end RunLemmas


/-! ### Operation-level lemmas -/

section OpLemmas

variable {T : Type} [Inhabited T]

theorem getCell_setCell_locked (s : PState T) (p : PropId) (c : PropertyImpl T)
    (hc : c.locked = (getCell s p).locked) (q : PropId) :
    (getCell (setCell s p c) q).locked = (getCell s q).locked := by
  rw [getCell_setCell_cases]
  by_cases h : q = p ∧ p < s.cells.length
  · have h1 : q = p := h.1
    subst h1
    rw [if_pos h, hc]
  · rw [if_neg h]

theorem getCell_setCell_binding (s : PState T) (p : PropId) (c : PropertyImpl T)
    (hc : c.binding = (getCell s p).binding) (q : PropId) :
    (getCell (setCell s p c) q).binding = (getCell s q).binding := by
  rw [getCell_setCell_cases]
  by_cases h : q = p ∧ p < s.cells.length
  · have h1 : q = p := h.1
    subst h1
    rw [if_pos h, hc]
  · rw [if_neg h]

theorem getCell_setCell_value (s : PState T) (p : PropId) (c : PropertyImpl T)
    (hc : c.value = (getCell s p).value) (q : PropId) :
    (getCell (setCell s p c) q).value = (getCell s q).value := by
  rw [getCell_setCell_cases]
  by_cases h : q = p ∧ p < s.cells.length
  · have h1 : q = p := h.1
    subst h1
    rw [if_pos h, hc]
  · rw [if_neg h]

theorem getCell_setCell_deps (s : PState T) (p : PropId) (c : PropertyImpl T)
    (hc : c.dependencies = (getCell s p).dependencies) (q : PropId) :
    (getCell (setCell s p c) q).dependencies = (getCell s q).dependencies := by
  rw [getCell_setCell_cases]
  by_cases h : q = p ∧ p < s.cells.length
  · have h1 : q = p := h.1
    subst h1
    rw [if_pos h, hc]
  · rw [if_neg h]

/-- `Property::set` never touches borrow flags. -/
theorem set_locked (s : PState T) (p : PropId) (v : T) (q : PropId) :
    (getCell (Property.set s p v) q).locked = (getCell s q).locked := by
  set s1 := setCell s p { getCell s p with binding := none, dirty := false, value := v }
    with hs1
  set s2 := mark_dirty s1 p with hs2
  show (getCell (setCell s2 p { getCell s2 p with dirty := false }) q).locked
      = (getCell s q).locked
  rw [getCell_setCell_locked s2 p { getCell s2 p with dirty := false } rfl q]
  rw [((mark_dirty_preserves s1 p).1 q).2.2]
  exact getCell_setCell_locked s p
    { getCell s p with binding := none, dirty := false, value := v } rfl q

/-- `Property::set` does not change other cells' bindings or values. -/
theorem set_other (s : PState T) (p : PropId) (v : T) (q : PropId) (hq : q ≠ p) :
    (getCell (Property.set s p v) q).binding = (getCell s q).binding ∧
    (getCell (Property.set s p v) q).value = (getCell s q).value := by
  set s1 := setCell s p { getCell s p with binding := none, dirty := false, value := v }
    with hs1
  set s2 := mark_dirty s1 p with hs2
  constructor
  · show (getCell (setCell s2 p { getCell s2 p with dirty := false }) q).binding
        = (getCell s q).binding
    rw [getCell_setCell_binding s2 p { getCell s2 p with dirty := false } rfl q,
      ((mark_dirty_preserves s1 p).1 q).2.1, getCell_setCell_ne s p q _ hq]
  · show (getCell (setCell s2 p { getCell s2 p with dirty := false }) q).value
        = (getCell s q).value
    rw [getCell_setCell_value s2 p { getCell s2 p with dirty := false } rfl q,
      ((mark_dirty_preserves s1 p).1 q).1, getCell_setCell_ne s p q _ hq]

/-- `Property::set` postconditions on the written cell. -/
theorem set_self (s : PState T) (p : PropId) (v : T) (hp : p < s.cells.length) :
    (getCell (Property.set s p v) p).binding = none ∧
    (getCell (Property.set s p v) p).value = v ∧
    (getCell (Property.set s p v) p).dirty = false := by
  set s1 := setCell s p { getCell s p with binding := none, dirty := false, value := v }
    with hs1
  set s2 := mark_dirty s1 p with hs2
  have hp1 : p < s1.cells.length := by
    rw [length_setCell]; exact hp
  have hp2 : p < s2.cells.length := by
    rw [(mark_dirty_preserves s1 p).2.1]; exact hp1
  have hself := getCell_setCell_self s2 p { getCell s2 p with dirty := false } hp2
  refine ⟨?_, ?_, ?_⟩
  · show (getCell (setCell s2 p { getCell s2 p with dirty := false }) p).binding = none
    rw [hself]
    show (getCell s2 p).binding = none
    rw [((mark_dirty_preserves s1 p).1 p).2.1, getCell_setCell_self s p _ hp]
  · show (getCell (setCell s2 p { getCell s2 p with dirty := false }) p).value = v
    rw [hself]
    show (getCell s2 p).value = v
    rw [((mark_dirty_preserves s1 p).1 p).1, getCell_setCell_self s p _ hp]
  · show (getCell (setCell s2 p { getCell s2 p with dirty := false }) p).dirty = false
    rw [hself]

theorem set_state (s : PState T) (p : PropId) (v : T) :
    (Property.set s p v).currentBinding = s.currentBinding ∧
    (Property.set s p v).evalLog = s.evalLog ∧
    (Property.set s p v).cells.length = s.cells.length := by
  set s1 := setCell s p { getCell s p with binding := none, dirty := false, value := v }
    with hs1
  set s2 := mark_dirty s1 p with hs2
  refine ⟨?_, ?_, ?_⟩
  · show (setCell s2 p { getCell s2 p with dirty := false }).currentBinding = _
    rw [currentBinding_setCell, (mark_dirty_preserves s1 p).2.2.1]
    rfl
  · show (setCell s2 p { getCell s2 p with dirty := false }).evalLog = _
    rw [evalLog_setCell, (mark_dirty_preserves s1 p).2.2.2]
    rfl
  · show (setCell s2 p { getCell s2 p with dirty := false }).cells.length = _
    rw [length_setCell, (mark_dirty_preserves s1 p).2.1, length_setCell]

/-- `Property::set_binding` never touches borrow flags. -/
theorem set_binding_locked (s : PState T) (p : PropId) (f : BExpr T) (q : PropId) :
    (getCell (Property.set_binding s p f) q).locked = (getCell s q).locked := by
  set s1 := setCell s p { getCell s p with binding := some f } with hs1
  show (getCell (mark_dirty s1 p) q).locked = (getCell s q).locked
  rw [((mark_dirty_preserves s1 p).1 q).2.2]
  exact getCell_setCell_locked s p { getCell s p with binding := some f } rfl q

/-- `Property::set_binding` does not change other cells' bindings or values. -/
theorem set_binding_other (s : PState T) (p : PropId) (f : BExpr T) (q : PropId)
    (hq : q ≠ p) :
    (getCell (Property.set_binding s p f) q).binding = (getCell s q).binding ∧
    (getCell (Property.set_binding s p f) q).value = (getCell s q).value := by
  set s1 := setCell s p { getCell s p with binding := some f } with hs1
  constructor
  · show (getCell (mark_dirty s1 p) q).binding = (getCell s q).binding
    rw [((mark_dirty_preserves s1 p).1 q).2.1, getCell_setCell_ne s p q _ hq]
  · show (getCell (mark_dirty s1 p) q).value = (getCell s q).value
    rw [((mark_dirty_preserves s1 p).1 q).1, getCell_setCell_ne s p q _ hq]

/-- A `mark_dirty` call leaves its own cell dirty. -/
theorem mark_dirty_dirty_self (s : PState T) (p : PropId) (hp : p < s.cells.length) :
    (getCell (mark_dirty s p) p).dirty = true := by
  have hspec : mark_dirty_go (totalEdges s)
      (setCell s p { getCell s p with dirty := true, dependencies := [] })
      ((getCell s p).dependencies ++ []) = some (mark_dirty s p) := mark_dirty_spec s p
  refine mark_dirty_go_dirty_mono _ _ _ _ hspec p ?_
  rw [getCell_setCell_self _ _ _ hp]

/-- `Property::set_binding` postconditions on the rebound cell. -/
theorem set_binding_self (s : PState T) (p : PropId) (f : BExpr T)
    (hp : p < s.cells.length) :
    (getCell (Property.set_binding s p f) p).binding = some f ∧
    (getCell (Property.set_binding s p f) p).dirty = true := by
  set s1 := setCell s p { getCell s p with binding := some f } with hs1
  have hp1 : p < s1.cells.length := by rw [length_setCell]; exact hp
  constructor
  · show (getCell (mark_dirty s1 p) p).binding = some f
    rw [((mark_dirty_preserves s1 p).1 p).2.1, getCell_setCell_self s p _ hp]
  · exact mark_dirty_dirty_self s1 p hp1

theorem set_binding_state (s : PState T) (p : PropId) (f : BExpr T) :
    (Property.set_binding s p f).currentBinding = s.currentBinding ∧
    (Property.set_binding s p f).evalLog = s.evalLog ∧
    (Property.set_binding s p f).cells.length = s.cells.length := by
  set s1 := setCell s p { getCell s p with binding := some f } with hs1
  refine ⟨?_, ?_, ?_⟩
  · show (mark_dirty s1 p).currentBinding = _
    rw [(mark_dirty_preserves s1 p).2.2.1]
    rfl
  · show (mark_dirty s1 p).evalLog = _
    rw [(mark_dirty_preserves s1 p).2.2.2]
    rfl
  · show (mark_dirty s1 p).cells.length = _
    rw [(mark_dirty_preserves s1 p).2.1, length_setCell]

end OpLemmas


/-! ### Read-path lemmas and trace plumbing -/

section TraceLemmas

variable {T : Type} [Inhabited T]

/-- Reading an unlocked cell with no binding returns the stored value and only
registers the dependency, whatever the dirty flag says. -/
theorem get_unbound (fuel : Nat) (s : PState T) (ctx : EvaluationContext) (p : PropId)
    (hb : (getCell s p).binding = none) (hl : (getCell s p).locked = false) :
    Property.get (fuel+2) s ctx p = .ok ((getCell s p).value, registerDep s p) := by
  have hupd : run (fuel+1) s ctx (.update p) = .ok ((getCell s p).value, s) := by
    rw [run_update_succ, hl, hb]
    cases hd : (getCell s p).dirty with
    | false => simp
    | true => simp
  show run ((fuel+1)+1) s ctx (.getProp p) = _
  rw [run_getProp_succ]
  simp only [hupd]
  rw [(registerDep_fields s p p).2.2.1]

/-- A write to `p` never clears another cell's dirty flag. -/
theorem set_dirty_mono (s : PState T) (p : PropId) (v : T) (q : PropId) (hq : q ≠ p)
    (hd : (getCell s q).dirty = true) :
    (getCell (Property.set s p v) q).dirty = true := by
  set s1 := setCell s p { getCell s p with binding := none, dirty := false, value := v }
    with hs1
  set s2 := mark_dirty s1 p with hs2
  show (getCell (setCell s2 p { getCell s2 p with dirty := false }) q).dirty = true
  rw [getCell_setCell_ne _ _ _ _ hq]
  refine mark_dirty_go_dirty_mono _ _ _ _ (mark_dirty_spec s1 p) q ?_
  rw [getCell_setCell_ne _ _ _ _ hq]
  exact hd

theorem runOp_set (fuel : Nat) (ctx : EvaluationContext) (s : PState T)
    (p : PropId) (v : T) : runOp fuel ctx s (.set p v) = .ok (Property.set s p v) := rfl

theorem runOp_set_binding (fuel : Nat) (ctx : EvaluationContext) (s : PState T)
    (p : PropId) (f : BExpr T) :
    runOp fuel ctx s (.set_binding p f) = .ok (Property.set_binding s p f) := rfl

theorem runOps_nil (fuel : Nat) (ctx : EvaluationContext) (s : PState T) :
    runOps fuel ctx [] s = .ok s := rfl

theorem runOps_cons_ok (fuel : Nat) (ctx : EvaluationContext) (op : Op T)
    (ops : List (Op T)) (s s₁ : PState T) (h : runOp fuel ctx s op = .ok s₁) :
    runOps fuel ctx (op :: ops) s = runOps fuel ctx ops s₁ := by
  show (match runOp fuel ctx s op with
        | .error e => .error e
        | .ok s' => runOps fuel ctx ops s') = runOps fuel ctx ops s₁
  rw [h]

theorem list_getD_replicate {α : Type _} (a : α) :
    ∀ (n i : Nat), (List.replicate n a).getD i a = a := by
  intro n
  induction n with
  | zero => intro i; cases i <;> rfl
  | succ m ih =>
      intro i
      cases i with
      | zero => rfl
      | succ j => exact ih j

theorem getCell_initState (n q : Nat) : getCell (initState T n) q = default :=
  list_getD_replicate default n q

theorem allUnlocked_initState (n : Nat) : AllUnlocked (initState T n) := by
  intro q
  rw [getCell_initState]
  rfl

end TraceLemmas


/-! ### Claim theorems -/

/-- C9: the mark-dirty invalidation sweep terminates on every finite
dependency graph, cycles of live mutually dependent cells included: because
each visited cell's dependents list is swapped out and emptied before the
sweep recurses into it, the sweep performs at most `totalEdges + |work|`
visits, so that much fuel never runs out. -/
theorem mark_dirty_sweep_terminates {T : Type} [Inhabited T]
    (fuel : Nat) (s : PState T) (work : List PropId)
    (h : totalEdges s + work.length ≤ fuel) :
    (mark_dirty_go fuel s work).isSome = true :=
  mark_dirty_go_isSome fuel s work h

/-- Two live cells that are mutually dependent: a cyclic dependents graph. -/
def cycleHeap : PState Int :=
  ⟨[⟨none, [1], false, false, 0⟩, ⟨none, [0], false, false, 0⟩], none, []⟩

theorem mark_dirty_sweep_terminates_witness :
    totalEdges cycleHeap + [0].length ≤ 3 ∧
    (mark_dirty_go 3 cycleHeap [0]).isSome = true :=
  ⟨by decide, mark_dirty_sweep_terminates 3 cycleHeap [0] (by decide)⟩

/-- C4: when `Property::set` returns, the stored value is the written one,
the binding is cleared, the cell's own dirty flag is false, and every other
cell transitively registered as a dependent at call time is dirty (the
invalidation sweep completes inside the call).  The written cell itself is
left clean even if it is its own transitive dependent, per the final
`dirty = false` write. -/
theorem set_postconditions {T : Type} [Inhabited T] (s : PState T) (p : PropId) (v : T)
    (hp : p < s.cells.length) (hWF : DepsInRange s) :
    (getCell (Property.set s p v) p).value = v ∧
    (getCell (Property.set s p v) p).binding = none ∧
    (getCell (Property.set s p v) p).dirty = false ∧
    ∀ q, Reaches s p q → q ≠ p → (getCell (Property.set s p v) q).dirty = true := by
  obtain ⟨hb, hv, hd⟩ := set_self s p v hp
  refine ⟨hv, hb, hd, ?_⟩
  intro q hreach hq
  set s1 := setCell s p { getCell s p with binding := none, dirty := false, value := v }
    with hs1
  set s2 := mark_dirty s1 p with hs2
  have hdeps1 : ∀ r, (getCell s1 r).dependencies = (getCell s r).dependencies :=
    getCell_setCell_deps s p { getCell s p with binding := none, dirty := false, value := v }
      rfl
  have hWF1 : DepsInRange s1 := by
    intro a d hd2
    rw [length_setCell]
    rw [hdeps1 a] at hd2
    exact hWF a d hd2
  have hp1 : p < s1.cells.length := by rw [length_setCell]; exact hp
  have hreach1 : Reaches s1 p q := (Reaches_congr s s1 hdeps1 p q).mpr hreach
  have hq2 : (getCell s2 q).dirty = true := mark_dirty_marks s1 p hWF1 hp1 q hreach1
  show (getCell (setCell s2 p { getCell s2 p with dirty := false }) q).dirty = true
  rw [getCell_setCell_ne _ _ _ _ hq]
  exact hq2

/-- Three cells forming a dependents chain 0 → 1 → 2. -/
def chainHeap : PState Int :=
  ⟨[⟨none, [1], false, false, 0⟩, ⟨none, [2], false, false, 0⟩,
    ⟨none, [], false, false, 0⟩], none, []⟩

theorem chainHeap_deps_in_range : DepsInRange chainHeap := by
  intro q d hd
  have hlen : chainHeap.cells.length = 3 := rfl
  rw [hlen]
  match q, hd with
  | 0, hd =>
      have e : (getCell chainHeap 0).dependencies = [1] := rfl
      rw [e] at hd
      simp at hd
      subst hd
      decide
  | 1, hd =>
      have e : (getCell chainHeap 1).dependencies = [2] := rfl
      rw [e] at hd
      simp at hd
      subst hd
      decide
  | 2, hd =>
      have e : (getCell chainHeap 2).dependencies = [] := rfl
      rw [e] at hd
      simp at hd
  | (n+3), hd =>
      have e : getCell chainHeap (n+3) = default :=
        getCell_oob chainHeap (n+3) (by show 3 ≤ n+3; exact Nat.le_add_left 3 n)
      rw [e] at hd
      have e2 : (default : PropertyImpl Int).dependencies = [] := rfl
      rw [e2] at hd
      simp at hd

theorem set_postconditions_witness :
    (getCell (Property.set chainHeap 0 7) 0).value = 7 ∧
    (getCell (Property.set chainHeap 0 7) 0).binding = none ∧
    (getCell (Property.set chainHeap 0 7) 0).dirty = false ∧
    (getCell (Property.set chainHeap 0 7) 2).dirty = true := by
  obtain ⟨h1, h2, h3, h4⟩ := set_postconditions chainHeap 0 7 (by decide)
    chainHeap_deps_in_range
  exact ⟨h1, h2, h3, h4 2 ⟨[1, 2], rfl⟩ (by decide)⟩

/-- C8: when `sixtyfps_property_set_changed` returns, every other cell
transitively registered as a dependent at call time is dirty, the handle's
own dirty flag is cleared, and its binding is removed. -/
theorem set_changed_postconditions {T : Type} [Inhabited T] (s : PState T) (p : PropId)
    (hp : p < s.cells.length) (hWF : DepsInRange s) :
    (getCell (sixtyfps_property_set_changed s p) p).dirty = false ∧
    (getCell (sixtyfps_property_set_changed s p) p).binding = none ∧
    ∀ q, Reaches s p q → q ≠ p →
      (getCell (sixtyfps_property_set_changed s p) q).dirty = true := by
  set s1 := mark_dirty s p with hs1
  set s2 := setCell s1 p { getCell s1 p with dirty := false } with hs2
  have hp1 : p < s1.cells.length := by
    rw [(mark_dirty_preserves s p).2.1]
    exact hp
  have hp2 : p < s2.cells.length := by rw [length_setCell]; exact hp1
  have hself2 := getCell_setCell_self s1 p { getCell s1 p with dirty := false } hp1
  have hself3 := getCell_setCell_self s2 p { getCell s2 p with binding := none } hp2
  refine ⟨?_, ?_, ?_⟩
  · show (getCell (setCell s2 p { getCell s2 p with binding := none }) p).dirty = false
    rw [hself3]
    show (getCell s2 p).dirty = false
    rw [hself2]
  · show (getCell (setCell s2 p { getCell s2 p with binding := none }) p).binding = none
    rw [hself3]
  · intro q hreach hq
    show (getCell (setCell s2 p { getCell s2 p with binding := none }) q).dirty = true
    rw [getCell_setCell_ne _ _ _ _ hq, getCell_setCell_ne _ _ _ _ hq]
    exact mark_dirty_marks s p hWF hp q hreach

/-- Three opaque handles forming a dependents chain 0 → 1 → 2. -/
def changedHeap : PState Int :=
  ⟨[⟨some (.const 1), [1], false, false, 0⟩, ⟨none, [2], false, false, 0⟩,
    ⟨none, [], false, false, 0⟩], none, []⟩

theorem changedHeap_deps_in_range : DepsInRange changedHeap := by
  intro q d hd
  have hlen : changedHeap.cells.length = 3 := rfl
  rw [hlen]
  match q, hd with
  | 0, hd =>
      have e : (getCell changedHeap 0).dependencies = [1] := rfl
      rw [e] at hd
      simp at hd
      subst hd
      decide
  | 1, hd =>
      have e : (getCell changedHeap 1).dependencies = [2] := rfl
      rw [e] at hd
      simp at hd
      subst hd
      decide
  | 2, hd =>
      have e : (getCell changedHeap 2).dependencies = [] := rfl
      rw [e] at hd
      simp at hd
  | (n+3), hd =>
      have e : getCell changedHeap (n+3) = default :=
        getCell_oob changedHeap (n+3) (by show 3 ≤ n+3; exact Nat.le_add_left 3 n)
      rw [e] at hd
      have e2 : (default : PropertyImpl Int).dependencies = [] := rfl
      rw [e2] at hd
      simp at hd

theorem set_changed_postconditions_witness :
    (getCell (sixtyfps_property_set_changed changedHeap 0) 0).dirty = false ∧
    (getCell (sixtyfps_property_set_changed changedHeap 0) 0).binding = none ∧
    (getCell (sixtyfps_property_set_changed changedHeap 0) 2).dirty = true := by
  obtain ⟨h1, h2, h3⟩ := set_changed_postconditions changedHeap 0 (by decide)
    changedHeap_deps_in_range
  exact ⟨h1, h2, h3 2 ⟨[1, 2], rfl⟩ (by decide)⟩


/-- C6: two consecutive `get` calls on a clean, unborrowed cell with no
intervening writes return the same stored value, and the evaluation log shows
that no binding was invoked by either call. -/
theorem idempotent_clean_read {T : Type} [Inhabited T] (fuel : Nat) (s : PState T)
    (ctx : EvaluationContext) (p : PropId)
    (h1 : (getCell s p).dirty = false) (h2 : (getCell s p).locked = false) :
    Property.get (fuel+2) s ctx p = .ok ((getCell s p).value, registerDep s p) ∧
    Property.get (fuel+2) (registerDep s p) ctx p
      = .ok ((getCell s p).value, registerDep (registerDep s p) p) ∧
    (registerDep (registerDep s p) p).evalLog = s.evalLog := by
  have hupd : run (fuel+1) s ctx (.update p) = .ok ((getCell s p).value, s) := by
    rw [run_update_succ, h2, h1]
    simp
  have hupd2 : run (fuel+1) (registerDep s p) ctx (.update p)
      = .ok ((getCell (registerDep s p) p).value, registerDep s p) := by
    rw [run_update_succ, (registerDep_fields s p p).2.1, h2,
      (registerDep_fields s p p).2.2.2, h1]
    simp
  refine ⟨?_, ?_, ?_⟩
  · show run ((fuel+1)+1) s ctx (.getProp p) = _
    rw [run_getProp_succ]
    simp only [hupd]
    rw [(registerDep_fields s p p).2.2.1]
  · show run ((fuel+1)+1) (registerDep s p) ctx (.getProp p) = _
    rw [run_getProp_succ]
    simp only [hupd2]
    rw [(registerDep_fields (registerDep s p) p p).2.2.1, (registerDep_fields s p p).2.2.1]
  · rw [(registerDep_state (registerDep s p) p).2.1, (registerDep_state s p).2.1]

/-- A single clean cell holding the value `11`. -/
def cleanHeap : PState Int := ⟨[⟨none, [], false, false, 11⟩], none, []⟩

theorem idempotent_clean_read_witness :
    Property.get (0+2) cleanHeap (.for_root_component 0) 0
      = .ok ((getCell cleanHeap 0).value, registerDep cleanHeap 0) ∧
    Property.get (0+2) (registerDep cleanHeap 0) (.for_root_component 0) 0
      = .ok ((getCell cleanHeap 0).value, registerDep (registerDep cleanHeap 0) 0) ∧
    (registerDep (registerDep cleanHeap 0) 0).evalLog = cleanHeap.evalLog :=
  idempotent_clean_read 0 cleanHeap (.for_root_component 0) 0 rfl rfl

/-- C10: a `get` on a dirty cell with no binding (reachable when `set`
removed the binding and a later dependency sweep re-dirtied the cell)
returns the stored value and leaves the dirty flag set: a read clears dirty
only by actually evaluating a binding. -/
theorem dirty_unbound_read {T : Type} [Inhabited T] (fuel : Nat) (s : PState T)
    (ctx : EvaluationContext) (p : PropId)
    (hb : (getCell s p).binding = none) (hl : (getCell s p).locked = false)
    (hd : (getCell s p).dirty = true) :
    Property.get (fuel+2) s ctx p = .ok ((getCell s p).value, registerDep s p) ∧
    (getCell (registerDep s p) p).dirty = true := by
  refine ⟨get_unbound fuel s ctx p hb hl, ?_⟩
  rw [(registerDep_fields s p p).2.2.2]
  exact hd

/-- A cell (id 1) whose binding was removed by `set` earlier, registered as a
dependent of cell 0; writing cell 0 re-dirties it. -/
def sweptHeap : PState Int :=
  ⟨[⟨none, [1], false, false, 0⟩, ⟨none, [], false, false, 5⟩], none, []⟩

theorem dirty_unbound_read_witness :
    Property.get (0+2) (Property.set sweptHeap 0 9) (.for_root_component 0) 1
      = .ok ((getCell (Property.set sweptHeap 0 9) 1).value,
          registerDep (Property.set sweptHeap 0 9) 1) ∧
    (getCell (registerDep (Property.set sweptHeap 0 9) 1) 1).dirty = true :=
  dirty_unbound_read 0 (Property.set sweptHeap 0 9) (.for_root_component 0) 1 rfl rfl rfl


/-- A single cell whose binding reads the cell itself. -/
def selfCycleHeap : PState Int :=
  Property.set_binding ⟨[⟨none, [], false, false, 0⟩], none, []⟩ 0 (.get 0)

/-- C3 counterexample: the first `get` on a self-reading cell does abort, but
the failure is the `RefCell::borrow` re-entrancy panic raised at the dirty
check of `Property::update` — not the failure labeled by the
`expect("Circular dependency in binding evaluation")`, which sits on the
later `try_borrow_mut` and is not reached on this path. -/
theorem self_cycle_label_counterexample :
    Property.get 8 selfCycleHeap (.for_root_component 0) 0
      = .error (.panicked .borrowError) ∧
    PanicKind.borrowError ≠ PanicKind.circularDependency :=
  ⟨rfl, by decide⟩

/-- C3 (amended): a cell whose binding reads the same cell, directly or
through another bound cell, aborts fatally on the first `get` with the
re-entrant-borrow panic: for every fuel at or above the abort depth the
result is that same abort, so the read never hangs, is never retried, and
never returns a stale or garbage value.  The abort is the `RefCell` borrow
panic, not a failure labeled "circular dependency". -/
theorem self_cycle_fails_fast {T : Type} [Inhabited T] (v0 v1 : T) (n : Nat)
    (ctx : EvaluationContext) :
    Property.get (n+5) (Property.set_binding
        (⟨[⟨none, [], false, false, v0⟩], none, []⟩ : PState T) 0 (.get 0)) ctx 0
      = .error (.panicked .borrowError) ∧
    Property.get (n+8) (⟨[⟨some (.get 1), [], true, false, v0⟩,
        ⟨some (.get 0), [], true, false, v1⟩], none, []⟩ : PState T) ctx 0
      = .error (.panicked .borrowError) :=
  ⟨rfl, rfl⟩

/-- C7: the thread-local evaluation slot holds the evaluated cell while its
binding runs (`updateEnter` installs it), and every engine entry point that
returns — `update`/`get`/binding evaluation, nested or not, and the
opaque-boundary `sixtyfps_property_update` — leaves the slot exactly as it
found it. -/
theorem evaluation_slot_discipline {T : Type} [Inhabited T] (fuel : Nat)
    (s : PState T) (ctx : EvaluationContext) :
    (∀ (t : Task T) (v : T) (s' : PState T),
      run fuel s ctx t = .ok (v, s') → s'.currentBinding = s.currentBinding) ∧
    (∀ p : PropId, (updateEnter s p).currentBinding = some p) ∧
    (∀ (p : PropId) (val v : T) (s' : PState T),
      sixtyfps_property_update fuel s ctx p val = .ok (v, s') →
        s'.currentBinding = s.currentBinding) := by
  refine ⟨fun t v s' h => (run_preserves fuel s ctx t v s' h).2.2.2.1,
    fun p => (updateEnter_state s p).1, ?_⟩
  intro p val v s' h
  simp only [sixtyfps_property_update] at h
  cases hlock : (getCell s p).locked with
  | true => rw [hlock] at h; simp at h
  | false =>
      rw [hlock] at h
      simp only [Bool.false_eq_true, if_false] at h
      cases hdirty : (getCell s p).dirty with
      | false =>
          rw [hdirty] at h
          simp only [Bool.not_false, if_true] at h
          obtain ⟨hv, hs⟩ : val = v ∧ registerDep s p = s' := by simpa using h
          subst hs
          exact (registerDep_state s p).1
      | true =>
          rw [hdirty] at h
          simp only [Bool.not_true, Bool.false_eq_true, if_false] at h
          cases hb : (getCell s p).binding with
          | none =>
              simp only [hb] at h
              obtain ⟨hv, hs⟩ : val = v ∧ registerDep s p = s' := by simpa using h
              subst hs
              exact (registerDep_state s p).1
          | some b =>
              simp only [hb] at h
              cases hrun : run fuel (updateEnter s p) ctx (.evalExpr b) with
              | error e => rw [hrun] at h; simp at h
              | ok pr =>
                  obtain ⟨v0, s2⟩ := pr
                  rw [hrun] at h
                  obtain ⟨hv, hs⟩ :
                      v0 = v ∧ registerDep (updateExit s2 p s.currentBinding v0) p = s' := by
                    simpa using h
                  subst hs
                  rw [(registerDep_state _ p).1, (updateExit_state s2 p _ _).1]

/-- A single dirty cell bound to the constant `3`. -/
def slotHeap : PState Int := ⟨[⟨some (.const 3), [], true, false, 0⟩], none, []⟩

/-- The state produced by running `update` on `slotHeap`'s only cell. -/
def slotHeapRead : PState Int :=
  ((run 4 slotHeap (.for_root_component 0) (Task.update 0)).toOption.getD (0, slotHeap)).2

theorem evaluation_slot_discipline_witness :
    slotHeapRead.currentBinding = none ∧
    (updateEnter slotHeap 0).currentBinding = some 0 :=
  ⟨((evaluation_slot_discipline 4 slotHeap (.for_root_component 0)).1
      (.update 0) 3 slotHeapRead rfl).trans rfl,
   (evaluation_slot_discipline 4 slotHeap (.for_root_component 0)).2.1 0⟩


/-- C1: over three fresh cells `a = 0`, `b = 1`, `c = 2`, after binding
`b := f(a.get)` and `c := g(b.get)` and then `set(a, x)`, the next `get(c)`
returns `g (f x)` and re-evaluates `b`'s binding exactly once (the
evaluation log holds one entry for `b`); a further `get(c)` returns the same
value without invoking any binding again (same state, log unchanged). -/
theorem propagation_chain_of_three {T : Type} [Inhabited T] (f g : T → T) (x : T)
    (ctx : EvaluationContext) :
    ∃ s4 : PState T,
      Property.get 16 (Property.set (Property.set_binding (Property.set_binding
          (initState T 3) 1 (.app f (.get 0))) 2 (.app g (.get 1))) 0 x) ctx 2
        = .ok (g (f x), s4) ∧
      s4.evalLog.count 1 = 1 ∧
      Property.get 16 s4 ctx 2 = .ok (g (f x), s4) := by
  have e1 : Property.set_binding (initState T 3) 1 (.app f (.get 0))
      = (⟨[⟨none, [], false, false, default⟩,
           ⟨some (.app f (.get 0)), [], true, false, default⟩,
           ⟨none, [], false, false, default⟩], none, []⟩ : PState T) := rfl
  rw [e1]
  have e2 : Property.set_binding (⟨[⟨none, [], false, false, default⟩,
           ⟨some (.app f (.get 0)), [], true, false, default⟩,
           ⟨none, [], false, false, default⟩], none, []⟩ : PState T) 2 (.app g (.get 1))
      = (⟨[⟨none, [], false, false, default⟩,
           ⟨some (.app f (.get 0)), [], true, false, default⟩,
           ⟨some (.app g (.get 1)), [], true, false, default⟩], none, []⟩ : PState T) := rfl
  rw [e2]
  have e3 : Property.set (⟨[⟨none, [], false, false, default⟩,
           ⟨some (.app f (.get 0)), [], true, false, default⟩,
           ⟨some (.app g (.get 1)), [], true, false, default⟩], none, []⟩ : PState T) 0 x
      = (⟨[⟨none, [], false, false, x⟩,
           ⟨some (.app f (.get 0)), [], true, false, default⟩,
           ⟨some (.app g (.get 1)), [], true, false, default⟩], none, []⟩ : PState T) := rfl
  rw [e3]
  refine ⟨⟨[⟨none, [1], false, false, x⟩,
           ⟨some (.app f (.get 0)), [2], false, false, f x⟩,
           ⟨some (.app g (.get 1)), [], false, false, g (f x)⟩], none, [1, 2]⟩,
    rfl, rfl, rfl⟩


/-- Invariant after rebinding cell 1 to the constant `k`: the binding is the
constant, the cell is unborrowed and live, and it is either dirty (will
recompute to `k`) or already holds `k`. -/
def constBound {T : Type} [Inhabited T] (k : T) (s : PState T) : Prop :=
  (getCell s 1).binding = some (.const k) ∧ (getCell s 1).locked = false ∧
  1 < s.cells.length ∧ ((getCell s 1).dirty = true ∨ (getCell s 1).value = k)

theorem constBound_get {T : Type} [Inhabited T] (k : T) (s : PState T)
    (ctx : EvaluationContext) (h : constBound k s) :
    getValue (Property.get 8 s ctx 1) = some k := by
  obtain ⟨hb, hl, hlen, hdv⟩ := h
  cases hd : (getCell s 1).dirty with
  | false =>
      have hv : (getCell s 1).value = k := by
        rcases hdv with h1 | h1
        · rw [hd] at h1; exact absurd h1 (by simp)
        · exact h1
      have hupd : run 7 s ctx (.update 1) = .ok ((getCell s 1).value, s) := by
        show run (6+1) s ctx (.update 1) = _
        rw [run_update_succ, hl, hd]
        simp
      show getValue (run (7+1) s ctx (.getProp 1)) = some k
      rw [run_getProp_succ]
      simp only [hupd]
      rw [getValue, (registerDep_fields s 1 1).2.2.1, hv]
  | true =>
      have hc : run 6 (updateEnter s 1) ctx (.evalExpr (BExpr.const k))
          = .ok (k, updateEnter s 1) := run_evalExpr_const 5 _ ctx k
      have hupd : run 7 s ctx (.update 1)
          = .ok (k, updateExit (updateEnter s 1) 1 s.currentBinding k) := by
        show run (6+1) s ctx (.update 1) = _
        rw [run_update_succ, hl, hd]
        simp only [Bool.not_true, Bool.false_eq_true, if_false, hb, hc]
      show getValue (run (7+1) s ctx (.getProp 1)) = some k
      rw [run_getProp_succ]
      simp only [hupd]
      rw [getValue, (registerDep_fields _ 1 1).2.2.1,
        (updateExit_proj (updateEnter s 1) 1 1 _ k).2.1,
        if_pos ⟨rfl, by rw [(updateEnter_state s 1).2.2]; exact hlen⟩]

theorem constBound_set {T : Type} [Inhabited T] (k x : T) (s : PState T)
    (h : constBound k s) : constBound k (Property.set s 0 x) := by
  obtain ⟨hb, hl, hlen, hdv⟩ := h
  have h10 : (1 : PropId) ≠ 0 := by decide
  refine ⟨(set_other s 0 x 1 h10).1.trans hb, (set_locked s 0 x 1).trans hl,
    ?_, ?_⟩
  · rw [(set_state s 0 x).2.2]
    exact hlen
  · rcases hdv with h1 | h1
    · exact Or.inl (set_dirty_mono s 0 x 1 h10 h1)
    · exact Or.inr ((set_other s 0 x 1 h10).2.trans h1)

theorem constBound_sets {T : Type} [Inhabited T] (k : T) (ctx : EvaluationContext) :
    ∀ (xs : List T) (s : PState T), constBound k s →
      (runOps 8 ctx (xs.map (fun x => Op.set 0 x)) s).toOption.bind
        (fun s' => getValue (Property.get 8 s' ctx 1)) = some k := by
  intro xs
  induction xs with
  | nil =>
      intro s h
      rw [List.map_nil, runOps_nil]
      exact constBound_get k s ctx h
  | cons x xs ih =>
      intro s h
      rw [List.map_cons, runOps_cons_ok 8 ctx _ _ s (Property.set s 0 x)
        (runOp_set 8 ctx s 0 x)]
      exact ih (Property.set s 0 x) (constBound_set k x s h)

/-- C5: bind `b = 1` to read `a = 0`, read it once (so the dependency is
registered), then rebind `b` to the constant `k`: every later sequence of
writes to `a` leaves `read(b)` equal to `k`. -/
theorem rebind_clears_influence {T : Type} [Inhabited T] (k : T) (xs : List T)
    (ctx : EvaluationContext) :
    (runOps 8 ctx ([Op.set_binding 1 (.get 0), Op.get 1, Op.set_binding 1 (.const k)]
        ++ xs.map (fun x => Op.set 0 x)) (initState T 2)).toOption.bind
      (fun s' => getValue (Property.get 8 s' ctx 1)) = some k := by
  rw [List.cons_append, List.cons_append, List.cons_append, List.nil_append]
  have r1 : runOp 8 ctx (initState T 2) (Op.set_binding 1 (.get 0))
      = .ok (⟨[⟨none, [], false, false, default⟩,
          ⟨some (.get 0), [], true, false, default⟩], none, []⟩ : PState T) := rfl
  rw [runOps_cons_ok 8 ctx _ _ _ _ r1]
  have r2 : runOp 8 ctx (⟨[⟨none, [], false, false, default⟩,
          ⟨some (.get 0), [], true, false, default⟩], none, []⟩ : PState T) (Op.get 1)
      = .ok (⟨[⟨none, [1], false, false, default⟩,
          ⟨some (.get 0), [], false, false, default⟩], none, [1]⟩ : PState T) := rfl
  rw [runOps_cons_ok 8 ctx _ _ _ _ r2]
  have r3 : runOp 8 ctx (⟨[⟨none, [1], false, false, default⟩,
          ⟨some (.get 0), [], false, false, default⟩], none, [1]⟩ : PState T)
        (Op.set_binding 1 (.const k))
      = .ok (⟨[⟨none, [1], false, false, default⟩,
          ⟨some (.const k), [], true, false, default⟩], none, [1]⟩ : PState T) := rfl
  rw [runOps_cons_ok 8 ctx _ _ _ _ r3]
  refine constBound_sets k ctx xs _ ⟨rfl, rfl, ?_, Or.inl rfl⟩
  show (1 : Nat) < 2
  decide


/-- Invariant after `set(p, v)` with no later write or rebind of `p`: the
cell has no binding, still stores `v`, and nothing is being evaluated at the
top level. -/
def unboundAt {T : Type} [Inhabited T] (p : PropId) (v : T) (s : PState T) : Prop :=
  (getCell s p).binding = none ∧ (getCell s p).value = v ∧ AllUnlocked s

theorem unboundAt_step {T : Type} [Inhabited T] (fuel : Nat) (ctx : EvaluationContext)
    (p : PropId) (v : T) (op : Op T) (s s' : PState T)
    (hop : Op.touches op p = false) (h : unboundAt p v s)
    (hrun : runOp fuel ctx s op = .ok s') : unboundAt p v s' := by
  obtain ⟨hb, hv, hul⟩ := h
  cases op with
  | set q w =>
      have hq : p ≠ q := by
        intro hc
        subst hc
        simp [Op.touches] at hop
      rw [runOp_set fuel ctx s q w] at hrun
      injection hrun with hs
      subst hs
      exact ⟨(set_other s q w p hq).1.trans hb, (set_other s q w p hq).2.trans hv,
        fun r => (set_locked s q w r).trans (hul r)⟩
  | set_binding q f =>
      have hq : p ≠ q := by
        intro hc
        subst hc
        simp [Op.touches] at hop
      rw [runOp_set_binding fuel ctx s q f] at hrun
      injection hrun with hs
      subst hs
      exact ⟨(set_binding_other s q f p hq).1.trans hb,
        (set_binding_other s q f p hq).2.trans hv,
        fun r => (set_binding_locked s q f r).trans (hul r)⟩
  | get q =>
      replace hrun : (Property.get fuel s ctx q).map Prod.snd = .ok s' := hrun
      cases hg : Property.get fuel s ctx q with
      | error e =>
          rw [hg] at hrun
          simp [Except.map] at hrun
      | ok pr =>
          obtain ⟨v1, st⟩ := pr
          rw [hg] at hrun
          simp only [Except.map] at hrun
          have hs : st = s' := by simpa using hrun
          subst hs
          obtain ⟨pb, pl, pv, _, _⟩ := run_preserves fuel s ctx (.getProp q) v1 st hg
          exact ⟨(pb p).trans hb, (pv p hb).trans hv, fun r => (pl r).trans (hul r)⟩

theorem unboundAt_runOps {T : Type} [Inhabited T] (fuel : Nat) (ctx : EvaluationContext)
    (p : PropId) (v : T) :
    ∀ (ops : List (Op T)) (s s' : PState T), unboundAt p v s →
      (∀ op ∈ ops, Op.touches op p = false) →
      runOps fuel ctx ops s = .ok s' → unboundAt p v s' := by
  intro ops
  induction ops with
  | nil =>
      intro s s' h _ hrun
      rw [runOps_nil] at hrun
      injection hrun with hrun
      subst hrun
      exact h
  | cons op ops ih =>
      intro s s' h hops hrun
      simp only [runOps] at hrun
      cases ho : runOp fuel ctx s op with
      | error e =>
          rw [ho] at hrun
          simp at hrun
      | ok s1 =>
          simp only [ho] at hrun
          exact ih s1 s'
            (unboundAt_step fuel ctx p v op s s1 (hops op (List.mem_cons_self op ops)) h ho)
            (fun o ho2 => hops o (List.mem_cons_of_mem op ho2)) hrun

/-- C2: after `set(p, v)`, any sequence of engine operations that contains no
`set` or `set_binding` on `p` (reads of `p` and arbitrary operations on
other cells are allowed) leaves every subsequent `get(p)` returning `v`. -/
theorem set_get_consistency {T : Type} [Inhabited T] (s : PState T) (p : PropId)
    (v : T) (ops : List (Op T)) (ctx : EvaluationContext) (fuel fuel2 : Nat)
    (s' : PState T)
    (hp : p < s.cells.length) (hun : AllUnlocked s)
    (hops : ∀ op ∈ ops, Op.touches op p = false)
    (hrun : runOps fuel ctx ops (Property.set s p v) = .ok s') :
    Property.get (fuel2+2) s' ctx p = .ok (v, registerDep s' p) := by
  have h0 : unboundAt p v (Property.set s p v) :=
    ⟨(set_self s p v hp).1, (set_self s p v hp).2.1,
     fun r => (set_locked s p v r).trans (hun r)⟩
  obtain ⟨hb, hv, hul⟩ := unboundAt_runOps fuel ctx p v ops _ s' h0 hops hrun
  rw [get_unbound fuel2 s' ctx p hb (hul p), hv]

/-- The heap reached by writing `42` into a fresh cell and reading it once. -/
def consistencyHeap : PState Int :=
  (runOps 4 (.for_root_component 0) [Op.get 0]
    (Property.set (initState Int 1) 0 42)).toOption.getD (initState Int 1)

theorem set_get_consistency_witness :
    Property.get (0+2) consistencyHeap (.for_root_component 0) 0
      = .ok (42, registerDep consistencyHeap 0) :=
  set_get_consistency (initState Int 1) 0 42 [Op.get 0] (.for_root_component 0) 4 0
    consistencyHeap (by decide) (allUnlocked_initState 1)
    (by
      intro op hop
      simp only [List.mem_singleton] at hop
      subst hop
      rfl)
    rfl

end Props
